import Mathlib

set_option linter.unusedVariables false

/-!
Shallow embedding of `src/parse_mate/file_finder.py` (the whole repository is
this single module) and proofs about the claims of its specification.

Modelling conventions:
* Python paths and strings are Lean `String`s; `str(Path(s)) = s`.
* A value of Python type `Union[str, Path]` is an `Entry`: the payload string
  together with a flag telling whether it is wrapped in `pathlib.Path`.
* The filesystem visible to `os.path` / `Path.stat` calls is a partial map
  from path strings to nodes carrying a modification time and a size.
* `datetime.datetime` values are modelled as a calendar-day ordinal plus a
  time-of-day; `datetime.date` values as the day ordinal alone.
  `datetime.fromtimestamp` is order-preserving, so sorting by the raw float
  `os.path.getmtime` result is sorting by the modelled datetime.
* Raising an exception is returning `Except.error`; Python's `sorted` is a
  stable merge sort (`List.mergeSort`), with `reverse=True` modelled by
  flipping the key comparison (ties keep input order either way, exactly as
  CPython documents).
-/

namespace ParseMate

open List

/-- A Python `datetime.datetime`: the calendar day (as an ordinal number) and
the time of day within it (microseconds since midnight, say). -/
structure PyDatetime where
  day : Int
  tod : Nat
deriving DecidableEq, Repr

/-- The `filter_date` argument of `filter_by_date`, of Python type
`Union[date, datetime]`: either a pure `datetime.date` or a full
`datetime.datetime`. -/
inductive PyDate where
  | date (day : Int)
  | datetime (dt : PyDatetime)
deriving DecidableEq, Repr

/-- The `FilterType` enum of the source. -/
inductive FilterType where
  | GREATER_THAN
  | GREATER_THAN_EQUAL
  | EQUAL
  | LESS_THAN_EQUAL
  | LESS_THAN
deriving DecidableEq, Repr

/-- The `OrderBy` enum of the source. -/
inductive OrderBy where
  | NAME_ASC
  | NAME_DESC
  | MODIFIED_ASC
  | MODIFIED_DESC
deriving DecidableEq, Repr

/-- The dynamically-typed `order_by` argument of `order_files`: one of the
four `OrderBy` members; or a hashable value that is not a member, which the
dictionary lookup `_ORDER_OPERATIONS.get` sends to the default; or an
unhashable value (a list, say), on which `_ORDER_OPERATIONS.get` raises
`TypeError` when it tries to hash the key. -/
inductive OrderArg where
  | known (o : OrderBy)
  | unrecognized
  | unhashable
deriving DecidableEq, Repr

/-- The exceptions the module can raise: `FileNotFoundError` (constructor and
`os`-level stat calls), `NotADirectoryError` (constructor), `FileExistsError`
(the `raise` statement inside `_verify_existence`), `AttributeError` (the
expression `file.exists` evaluated on a plain string), and `TypeError`
(mixed `date`/`datetime` order comparisons, and hashing an unhashable
`order_by` key). -/
inductive Err where
  | fileNotFound (p : String)
  | notADirectory (p : String)
  | fileExists (p : String)
  | attributeError (p : String)
  | typeError
deriving DecidableEq, Repr

/-- A `Union[str, Path]` value: `isPath = true` for a `pathlib.Path`, `false`
for a plain string; `path` is the underlying path string. -/
structure Entry where
  isPath : Bool
  path : String
deriving DecidableEq, Repr

/-- Embedding of `Path(file)`: wrapping a value in `pathlib.Path` (a no-op on a `Path`). -/
def Entry.toPath (e : Entry) : Entry :=
  ⟨true, e.path⟩

/-- Metadata of a filesystem node: last-modification time and byte size. -/
structure FileMeta where
  mtime : PyDatetime
  size : Nat
deriving DecidableEq, Repr

/-- A filesystem node is a regular file or a directory; both carry metadata. -/
inductive FSNode where
  | file (meta : FileMeta)
  | dir (meta : FileMeta)
deriving DecidableEq, Repr

/-- Metadata of a node, whichever kind it is. -/
def FSNode.meta : FSNode → FileMeta
  | .file m => m
  | .dir m => m

/-- The filesystem: a partial map from path strings to nodes; `none` means the
path does not exist. -/
def FS : Type := String → Option FSNode

/-- Embedding of `os.path.exists`. -/
def os_path_exists (fs : FS) (p : String) : Bool :=
  (fs p).isSome

/-- Embedding of `os.path.isdir`. -/
def os_path_isdir (fs : FS) (p : String) : Bool :=
  match fs p with
  | some (.dir _) => true
  | _ => false

/-- Embedding of `datetime.fromtimestamp(os.path.getmtime(p))`: the modification time of an
existing node, `FileNotFoundError` otherwise. -/
def os_path_getmtime (fs : FS) (p : String) : Except Err PyDatetime :=
  match fs p with
  | some n => .ok n.meta.mtime
  | none => .error (.fileNotFound p)

/-- Embedding of `Path(p).stat().st_size`: the byte size of an existing node,
`FileNotFoundError` otherwise. -/
def stat_st_size (fs : FS) (p : String) : Except Err Nat :=
  match fs p with
  | some n => .ok n.meta.size
  | none => .error (.fileNotFound p)

/-- Total variant of `os_path_getmtime`, used only to state theorems (the
default is irrelevant under an existence hypothesis). -/
def mtimeD (fs : FS) (p : String) : PyDatetime :=
  match fs p with
  | some n => n.meta.mtime
  | none => ⟨0, 0⟩

/-- Total variant of `stat_st_size`, used only to state theorems. -/
def sizeD (fs : FS) (p : String) : Nat :=
  match fs p with
  | some n => n.meta.size
  | none => 0

/-- The scanner object built by `FileFinder.__init__`. -/
structure FileFinder where
  directory : String
  filename_pattern : String
deriving DecidableEq, Repr

/-- Embedding of `FileFinder.__init__`: check `os.path.exists`, then
`os.path.isdir`, then store the two fields. The pattern is never inspected. -/
def FileFinder.init (fs : FS) (directory : String) (filename_pattern : String) :
    Except Err FileFinder :=
  if os_path_exists fs directory = false then
    .error (.fileNotFound directory)
  else if os_path_isdir fs directory = false then
    .error (.notADirectory directory)
  else
    .ok ⟨directory, filename_pattern⟩

/-- Evaluation of the expression `file.exists` inside `_verify_existence`.
The source omits the call parentheses, so on a `Path` entry the expression
denotes the bound method object itself — never the result of calling it —
and a bound method is always truthy, whatever the filesystem contains. On a
plain string entry the attribute access itself raises `AttributeError`
(a `str` has no attribute `exists`). -/
def exists_attribute (file : Entry) : Except Err Bool :=
  if file.isPath then .ok true
  else .error (.attributeError file.path)

/-- Embedding of `FileFinder._verify_existence`: for each entry of the list
exactly as it was passed in, evaluate `file.exists` (raising
`AttributeError` on a string entry) and raise `FileExistsError` when the
value is falsy — which, the value being the always-truthy uncalled bound
method, never happens for a `Path` entry. -/
def verify_existence : List Entry → Except Err Unit
  | [] => .ok ()
  | file :: rest =>
    match exists_attribute file with
    | .error e => .error e
    | .ok truthy =>
      if truthy = false then .error (.fileExists file.path)
      else verify_existence rest

/-- The test `isinstance(filter_date, date)` in `filter_by_date`: in Python,
`datetime.datetime` is a subclass of `datetime.date`, so the test is true for
both constructors of `PyDate`. -/
def isinstance_date (filter_date : PyDate) : Bool :=
  true

/-- The comparator table `_FILTER_OPERATORS` applied between two pure `date`
values (day ordinals). -/
def cmpDay (ft : FilterType) (a b : Int) : Bool :=
  match ft with
  | .GREATER_THAN => decide (a > b)
  | .GREATER_THAN_EQUAL => decide (a ≥ b)
  | .EQUAL => decide (a = b)
  | .LESS_THAN_EQUAL => decide (a ≤ b)
  | .LESS_THAN => decide (a < b)

/-- Strict order on `datetime` values: lexicographic on (day, time-of-day). -/
def dtLt (a b : PyDatetime) : Bool :=
  decide (a.day < b.day ∨ (a.day = b.day ∧ a.tod < b.tod))

/-- Non-strict order on `datetime` values. -/
def dtLe (a b : PyDatetime) : Bool :=
  decide (a.day < b.day ∨ (a.day = b.day ∧ a.tod ≤ b.tod))

/-- The comparator table applied between two full `datetime` values. -/
def cmpDatetime (ft : FilterType) (a b : PyDatetime) : Bool :=
  match ft with
  | .GREATER_THAN => dtLt b a
  | .GREATER_THAN_EQUAL => dtLe b a
  | .EQUAL => decide (a = b)
  | .LESS_THAN_EQUAL => dtLe a b
  | .LESS_THAN => dtLt a b

/-- Applying a `_FILTER_OPERATORS` comparator to the (possibly truncated) file
modification value and `filter_date`, with Python's mixed-type semantics: a
`date` and a `datetime` are never equal, and ordering them raises
`TypeError`. -/
def py_compare (ft : FilterType) (lhs rhs : PyDate) : Except Err Bool :=
  match lhs, rhs with
  | .date a, .date b => .ok (cmpDay ft a b)
  | .datetime a, .datetime b => .ok (cmpDatetime ft a b)
  | _, _ =>
    match ft with
    | .EQUAL => .ok false
    | _ => .error .typeError

/-- The per-file loop of `filter_by_date`: read the mtime, truncate it to its
calendar date when `isinstance(filter_date, date)` holds (it always does),
apply the comparator, and keep `Path(file_path)` when it holds. -/
def filter_by_date_loop (fs : FS) (filter_date : PyDate) (filter_type : FilterType) :
    List Entry → Except Err (List Entry)
  | [] => .ok []
  | file_path :: rest =>
    match os_path_getmtime fs file_path.path with
    | .error e => .error e
    | .ok file_mod_dt =>
      let file_mod_time : PyDate :=
        if isinstance_date filter_date then .date file_mod_dt.day
        else .datetime file_mod_dt
      match py_compare filter_type file_mod_time filter_date with
      | .error e => .error e
      | .ok keep =>
        match filter_by_date_loop fs filter_date filter_type rest with
        | .error e => .error e
        | .ok tail => .ok (if keep then file_path.toPath :: tail else tail)

/-- Embedding of `FileFinder.filter_by_date`. -/
def filter_by_date (fs : FS) (list_of_files : List Entry)
    (filter_date : PyDate) (filter_type : FilterType) : Except Err (List Entry) :=
  match verify_existence list_of_files with
  | .error e => .error e
  | .ok _ => filter_by_date_loop fs filter_date filter_type list_of_files

/-- The size test of `filter_by_size`:
`(min_size is None or file_size >= min_size) and (max_size is None or file_size <= max_size)`. -/
def size_in_range (min_size max_size : Option Nat) (file_size : Nat) : Bool :=
  (match min_size with
   | none => true
   | some m => decide (file_size ≥ m)) &&
  (match max_size with
   | none => true
   | some m => decide (file_size ≤ m))

/-- The per-file loop of `filter_by_size`: convert to `Path`, stat the size,
keep the entry when it lies in the inclusive range. -/
def filter_by_size_loop (fs : FS) (min_size max_size : Option Nat) :
    List Entry → Except Err (List Entry)
  | [] => .ok []
  | file_path :: rest =>
    let fp := file_path.toPath
    match stat_st_size fs fp.path with
    | .error e => .error e
    | .ok file_size =>
      match filter_by_size_loop fs min_size max_size rest with
      | .error e => .error e
      | .ok tail =>
        .ok (if size_in_range min_size max_size file_size then fp :: tail else tail)

/-- Embedding of `FileFinder.filter_by_size`. -/
def filter_by_size (fs : FS) (list_of_files : List Entry)
    (min_size max_size : Option Nat) : Except Err (List Entry) :=
  match verify_existence list_of_files with
  | .error e => .error e
  | .ok _ => filter_by_size_loop fs min_size max_size list_of_files

/-- The element comparison induced by a sort key and a direction: ascending
compares the keys with `le`, descending compares them the other way round. -/
def key_cmp {α κ : Type} (key : α → κ) (le : κ → κ → Bool) (rev : Bool)
    (a b : α) : Bool :=
  if rev then le (key b) (key a) else le (key a) (key b)

/-- Python's `sorted(l, key=key, reverse=rev)`: a stable merge sort on the
key order, with `reverse=True` flipping the key comparison (CPython keeps
ties in input order in both directions). -/
def py_sorted {α κ : Type} (key : α → κ) (le : κ → κ → Bool) (rev : Bool)
    (l : List α) : List α :=
  l.mergeSort (key_cmp key le rev)

/-- Python's `str.lower()`: character-wise lowercasing of the string. -/
def str_lower (s : String) : String :=
  ⟨s.data.map Char.toLower⟩

/-- The sort key `str(x).lower()` of the name orderings. -/
def name_key (e : Entry) : String :=
  str_lower e.path

/-- Boolean order on strings (lexicographic, as in Python). -/
def strLe (a b : String) : Bool :=
  decide (a ≤ b)

/-- Key extraction pass of the modified-time orderings: `sorted` evaluates
`os.path.getmtime(str(x))` once per element, in input order, propagating
`FileNotFoundError`. -/
def decorate_mtime (fs : FS) : List Entry → Except Err (List (PyDatetime × Entry))
  | [] => .ok []
  | e :: rest =>
    match os_path_getmtime fs e.path with
    | .error err => .error err
    | .ok m =>
      match decorate_mtime fs rest with
      | .error err => .error err
      | .ok tail => .ok ((m, e) :: tail)

/-- The `MODIFIED_ASC` / `MODIFIED_DESC` entries of `_ORDER_OPERATIONS`. -/
def order_modified (fs : FS) (rev : Bool) (files : List Entry) :
    Except Err (List Entry) :=
  match decorate_mtime fs files with
  | .error err => .error err
  | .ok keyed => .ok ((py_sorted Prod.fst dtLe rev keyed).map Prod.snd)

/-- Embedding of `FileFinder.order_files`: empty input returns `[]` at once;
otherwise every entry is wrapped in `Path`, `_verify_existence` runs on the
wrapped list, and the `_ORDER_OPERATIONS` entry selected by `order_by` sorts
the list — `_ORDER_OPERATIONS.get` sends a hashable value that is not a
member to the `NAME_ASC` default, and raises `TypeError` on an unhashable
value. -/
def order_files (fs : FS) (list_of_files : List Entry) (order_by : OrderArg) :
    Except Err (List Entry) :=
  if list_of_files.isEmpty then .ok []
  else
    let files := list_of_files.map Entry.toPath
    match verify_existence files with
    | .error e => .error e
    | .ok _ =>
      match order_by with
      | .known .NAME_ASC => .ok (py_sorted name_key strLe false files)
      | .known .NAME_DESC => .ok (py_sorted name_key strLe true files)
      | .known .MODIFIED_ASC => order_modified fs false files
      | .known .MODIFIED_DESC => order_modified fs true files
      | .unrecognized => .ok (py_sorted name_key strLe false files)
      | .unhashable => .error .typeError

/-- A directory tree as seen by `os.walk` from the scanner's root: the regular
file names directly inside a directory, and the subdirectories, each with its
name, in the order the traversal yields them. -/
inductive Tree where
  | node (files : List String) (dirs : List (String × Tree))

/-- Whether the walk, standing at `current_depth`, empties the subdirectory
list (`del dirs[:]`): exactly when `max_depth is not None and current_depth >= max_depth`. -/
def prunes (max_depth : Option Nat) (current_depth : Nat) : Bool :=
  match max_depth with
  | some m => decide (current_depth ≥ m)
  | none => false

mutual
/-- Embedding of the `os.walk` loop of `find_files`: standing at a directory
`current_depth` levels below the resolved root, collect this directory's
matching file names (as singleton relative paths) and then, unless the depth
bound prunes descent, the matches of each subdirectory in order, prefixed
with the subdirectory name — the pre-order in which `os.walk` yields
directories. `matches_pattern` abstracts the pure name predicate
`fnmatch.fnmatch(file, self.filename_pattern)`; returned paths are relative
to the root (the code prefixes each with the constant root path). -/
def walk_collect (matches_pattern : String → Bool) (max_depth : Option Nat)
    (current_depth : Nat) : Tree → List (List String)
  | .node files dirs =>
    ((files.filter matches_pattern).map fun f => [f]) ++
    (if prunes max_depth current_depth then []
     else walk_dirs matches_pattern max_depth current_depth dirs)

/-- Descent of the walk into an (unpruned) subdirectory list. -/
def walk_dirs (matches_pattern : String → Bool) (max_depth : Option Nat)
    (current_depth : Nat) : List (String × Tree) → List (List String)
  | [] => []
  | (name, sub) :: rest =>
    ((walk_collect matches_pattern max_depth (current_depth + 1) sub).map fun p => name :: p) ++
    walk_dirs matches_pattern max_depth current_depth rest
end

/-- Embedding of `FileFinder.find_files`, starting at the resolved root,
whose own depth is `0`. -/
def find_files (matches_pattern : String → Bool) (root : Tree)
    (max_depth : Option Nat) : List (List String) :=
  walk_collect matches_pattern max_depth 0 root

/-- The relative paths of the regular files below a directory tree whose base
name matches the pattern, at any depth: the data-model meaning of a matching
file for the specification of `find`. -/
inductive MatchedFile (matches_pattern : String → Bool) : Tree → List String → Prop where
  | here {files : List String} {dirs : List (String × Tree)} {f : String} :
      f ∈ files → matches_pattern f = true →
      MatchedFile matches_pattern (.node files dirs) [f]
  | there {files : List String} {dirs : List (String × Tree)} {name : String}
      {sub : Tree} {p : List String} :
      (name, sub) ∈ dirs → MatchedFile matches_pattern sub p →
      MatchedFile matches_pattern (.node files dirs) (name :: p)

/-- The depth side condition a returned path satisfies: with no bound there
is none; with bound `m`, either the file sits directly in the scanned
directory, or the total depth stays within the bound. -/
def depth_ok (max_depth : Option Nat) (current_depth : Nat) (p : List String) : Prop :=
  match max_depth with
  | none => True
  | some m => p.length = 1 ∨ current_depth + p.length ≤ m + 1

/-! ## Concrete filesystems used in counterexamples and witnesses -/

/-- A filesystem with no entries at all. -/
def fsEmpty : FS := fun _ => none

/-- A filesystem holding the single 10-byte file `a.txt`, last modified at
the datetime (day 5, time-of-day 100). -/
def fsA : FS := fun p =>
  if p = "a.txt" then some (.file ⟨⟨5, 100⟩, 10⟩) else none

/-- A filesystem holding `a.txt` (day 5, 10 bytes) and `b.txt` (day 4,
20 bytes). -/
def fsAB : FS := fun p =>
  if p = "a.txt" then some (.file ⟨⟨5, 100⟩, 10⟩)
  else if p = "b.txt" then some (.file ⟨⟨4, 0⟩, 20⟩)
  else none

/-- A filesystem holding the single directory `root`. -/
def fsDir : FS := fun p =>
  if p = "root" then some (.dir ⟨⟨0, 0⟩, 0⟩) else none

/-! ## General lemmas about the embedded operations -/

theorem toPath_toPath (e : Entry) : e.toPath.toPath = e.toPath := rfl

theorem toPath_isPath (e : Entry) : e.toPath.isPath = true := rfl

theorem toPath_path (e : Entry) : e.toPath.path = e.path := rfl

theorem toPath_eq_self {e : Entry} (h : e.isPath = true) : e.toPath = e := by
  cases e
  simp_all [Entry.toPath]

theorem map_toPath_eq_self {l : List Entry} (h : ∀ e ∈ l, e.isPath = true) :
    l.map Entry.toPath = l := by
  induction l with
  | nil => rfl
  | cons f rest ih =>
    simp only [List.map_cons, List.cons.injEq]
    exact ⟨toPath_eq_self (h f (by simp)), ih fun e he => h e (by simp [he])⟩

theorem isPath_of_mem_map_toPath {l : List Entry} {e : Entry}
    (h : e ∈ l.map Entry.toPath) : e.isPath = true := by
  rcases List.mem_map.mp h with ⟨x, -, rfl⟩
  rfl

/-- On a list of `Path` entries the existence check never raises: its guard
is the truthiness of an uncalled bound method. -/
theorem verify_existence_ok : ∀ {l : List Entry},
    (∀ e ∈ l, e.isPath = true) → verify_existence l = .ok () := by
  intro l
  induction l with
  | nil => intro h; rfl
  | cons f rest ih =>
    intro h
    have hf : f.isPath = true := h f (by simp)
    have hrest := ih fun e he => h e (by simp [he])
    simp [verify_existence, exists_attribute, hf, hrest]

/-- Conversely, the existence check passes only lists of `Path` entries: the
attribute access on a string entry raises first. -/
theorem verify_existence_ok_paths : ∀ {l : List Entry},
    verify_existence l = .ok () → ∀ e ∈ l, e.isPath = true := by
  intro l
  induction l with
  | nil => intro h e he; cases he
  | cons f rest ih =>
    intro h e he
    simp only [verify_existence, exists_attribute] at h
    by_cases hf : f.isPath = true
    · rw [if_pos hf] at h
      simp only [if_neg] at h
      rcases List.mem_cons.mp he with rfl | he2
      · exact hf
      · exact ih (by simpa using h) e he2
    · rw [if_neg hf] at h
      cases h

/-- The `Path`-wrapped list built by `order_files` always passes the
existence check. -/
theorem verify_existence_map_toPath (l : List Entry) :
    verify_existence (l.map Entry.toPath) = .ok () :=
  verify_existence_ok fun e he => isPath_of_mem_map_toPath he

/-- The existence check raises `AttributeError` at the first plain-string
entry of the list. -/
theorem verify_existence_first_str :
    ∀ (pre : List Entry) (f : Entry) (post : List Entry),
      (∀ e ∈ pre, e.isPath = true) → f.isPath = false →
      verify_existence (pre ++ f :: post) = .error (.attributeError f.path) := by
  intro pre
  induction pre with
  | nil =>
    intro f post hpre hf
    simp [verify_existence, exists_attribute, hf]
  | cons g rest ih =>
    intro f post hpre hf
    have hg : g.isPath = true := hpre g (by simp)
    have hrest := ih f post (fun e he => hpre e (by simp [he])) hf
    simp [verify_existence, exists_attribute, hg, hrest]

/-- Inversion of a successful `filter_by_date` call: validation passed (so
every entry is a `Path`) and the filtering loop produced the output. -/
theorem filter_by_date_ok_inv {fs : FS} {L out : List Entry} {fd : PyDate}
    {ft : FilterType} (h : filter_by_date fs L fd ft = .ok out) :
    verify_existence L = .ok () ∧ filter_by_date_loop fs fd ft L = .ok out := by
  unfold filter_by_date at h
  split at h
  · cases h
  · rename_i u hu
    cases u
    exact ⟨hu, h⟩

/-- Inversion of a successful `filter_by_size` call. -/
theorem filter_by_size_ok_inv {fs : FS} {L out : List Entry}
    {mn mx : Option Nat} (h : filter_by_size fs L mn mx = .ok out) :
    verify_existence L = .ok () ∧ filter_by_size_loop fs mn mx L = .ok out := by
  unfold filter_by_size at h
  split at h
  · cases h
  · rename_i u hu
    cases u
    exact ⟨hu, h⟩

theorem strLe_trans : ∀ a b c : String, strLe a b → strLe b c → strLe a c := by
  intro a b c hab hbc
  simp only [strLe, decide_eq_true_eq] at *
  exact le_trans hab hbc

theorem strLe_total : ∀ a b : String, strLe a b || strLe b a := by
  intro a b
  simp only [strLe, Bool.or_eq_true, decide_eq_true_eq]
  exact le_total a b

theorem dtLe_trans : ∀ a b c : PyDatetime, dtLe a b → dtLe b c → dtLe a c := by
  intro a b c hab hbc
  simp only [dtLe, decide_eq_true_eq] at *
  omega

theorem dtLe_total : ∀ a b : PyDatetime, dtLe a b || dtLe b a := by
  intro a b
  simp only [dtLe, Bool.or_eq_true, decide_eq_true_eq]
  omega

theorem key_cmp_trans {α κ : Type} (key : α → κ) (le : κ → κ → Bool)
    (hT : ∀ x y z, le x y → le y z → le x z) (rev : Bool) :
    ∀ a b c, key_cmp key le rev a b → key_cmp key le rev b c → key_cmp key le rev a c := by
  intro a b c
  cases rev <;> simp only [key_cmp, if_false, if_true, Bool.false_eq_true] <;>
    intro h1 h2
  · exact hT _ _ _ h1 h2
  · exact hT _ _ _ h2 h1

theorem key_cmp_total {α κ : Type} (key : α → κ) (le : κ → κ → Bool)
    (hTot : ∀ x y, le x y || le y x) (rev : Bool) :
    ∀ a b, key_cmp key le rev a b || key_cmp key le rev b a := by
  intro a b
  cases rev <;> simp only [key_cmp, if_false, if_true] <;>
    first
      | exact hTot (key a) (key b)
      | exact hTot (key b) (key a)

theorem key_cmp_of_key_eq {α κ : Type} (key : α → κ) (le : κ → κ → Bool)
    (hTot : ∀ x y, le x y || le y x) (rev : Bool) {a b : α}
    (h : key a = key b) : key_cmp key le rev a b := by
  have : le (key a) (key a) := by
    have := hTot (key a) (key a)
    simpa using this
  cases rev <;> simp only [key_cmp, if_false, if_true] <;> rw [h] at this ⊢ <;> exact this

theorem py_sorted_perm {α κ : Type} (key : α → κ) (le : κ → κ → Bool)
    (rev : Bool) (l : List α) : py_sorted key le rev l ~ l :=
  List.mergeSort_perm l _

theorem py_sorted_pairwise {α κ : Type} (key : α → κ) (le : κ → κ → Bool)
    (hT : ∀ x y z, le x y → le y z → le x z) (hTot : ∀ x y, le x y || le y x)
    (rev : Bool) (l : List α) :
    (py_sorted key le rev l).Pairwise fun a b => key_cmp key le rev a b := by
  exact List.sorted_mergeSort (key_cmp_trans key le hT rev) (key_cmp_total key le hTot rev) l

theorem py_sorted_of_pairwise {α κ : Type} {key : α → κ} {le : κ → κ → Bool}
    {rev : Bool} {l : List α}
    (h : l.Pairwise fun a b => key_cmp key le rev a b) :
    py_sorted key le rev l = l :=
  List.mergeSort_of_sorted h

theorem py_sorted_idem {α κ : Type} (key : α → κ) (le : κ → κ → Bool)
    (hT : ∀ x y z, le x y → le y z → le x z) (hTot : ∀ x y, le x y || le y x)
    (rev : Bool) (l : List α) :
    py_sorted key le rev (py_sorted key le rev l) = py_sorted key le rev l :=
  py_sorted_of_pairwise (py_sorted_pairwise key le hT hTot rev l)

theorem py_sorted_pair_stable {α κ : Type} (key : α → κ) (le : κ → κ → Bool)
    (hT : ∀ x y z, le x y → le y z → le x z) (hTot : ∀ x y, le x y || le y x)
    (rev : Bool) {a b : α} {l : List α}
    (hk : key a = key b) (h : [a, b] <+ l) :
    [a, b] <+ py_sorted key le rev l :=
  List.pair_sublist_mergeSort (key_cmp_trans key le hT rev)
    (key_cmp_total key le hTot rev) (key_cmp_of_key_eq key le hTot rev hk) h

theorem os_path_getmtime_eq (fs : FS) (p : String) (h : fs p ≠ none) :
    os_path_getmtime fs p = .ok (mtimeD fs p) := by
  cases hm : fs p with
  | none => exact absurd hm h
  | some n => simp [os_path_getmtime, mtimeD, hm]

theorem stat_st_size_eq (fs : FS) (p : String) (h : fs p ≠ none) :
    stat_st_size fs p = .ok (sizeD fs p) := by
  cases hm : fs p with
  | none => exact absurd hm h
  | some n => simp [stat_st_size, sizeD, hm]

/-- Any successful run of the `filter_by_date` loop yields a subsequence of
the `Path`-wrapped input list. -/
theorem filter_by_date_loop_sublist (fs : FS) (fd : PyDate) (ft : FilterType) :
    ∀ {l out : List Entry}, filter_by_date_loop fs fd ft l = .ok out →
      out <+ l.map Entry.toPath := by
  intro l
  induction l with
  | nil =>
    intro out h
    simp only [filter_by_date_loop] at h
    cases h
    simp
  | cons f rest ih =>
    intro out h
    simp only [filter_by_date_loop] at h
    split at h
    · cases h
    · split at h
      · cases h
      · split at h
        · cases h
        · rename_i tail htail
          cases h
          simp only [List.map_cons]
          split
          · exact (ih htail).cons₂ f.toPath
          · exact (ih htail).cons f.toPath

/-- Any successful run of the `filter_by_size` loop yields a subsequence of
the `Path`-wrapped input list. -/
theorem filter_by_size_loop_sublist (fs : FS) (mn mx : Option Nat) :
    ∀ {l out : List Entry}, filter_by_size_loop fs mn mx l = .ok out →
      out <+ l.map Entry.toPath := by
  intro l
  induction l with
  | nil =>
    intro out h
    simp only [filter_by_size_loop] at h
    cases h
    simp
  | cons f rest ih =>
    intro out h
    simp only [filter_by_size_loop] at h
    split at h
    · cases h
    · split at h
      · cases h
      · rename_i tail htail
        cases h
        simp only [List.map_cons]
        split
        · exact (ih htail).cons₂ f.toPath
        · exact (ih htail).cons f.toPath

/-- On existing files, the `filter_by_size` loop keeps exactly the entries
whose size lies in the inclusive range, each wrapped in `Path`. -/
theorem filter_by_size_loop_eq (fs : FS) (mn mx : Option Nat) :
    ∀ l : List Entry, (∀ e ∈ l, fs e.path ≠ none) →
      filter_by_size_loop fs mn mx l =
        .ok ((l.map Entry.toPath).filter fun e => size_in_range mn mx (sizeD fs e.path)) := by
  intro l
  induction l with
  | nil => intro h; simp [filter_by_size_loop]
  | cons f rest ih =>
    intro h
    have hf : fs f.path ≠ none := h f (by simp)
    have hrest := ih fun e he => h e (by simp [he])
    simp only [filter_by_size_loop, toPath_path, stat_st_size_eq fs f.path hf, hrest,
      List.map_cons, List.filter_cons]

/-- On existing files and a pure `date` reference, the `filter_by_date` loop
truncates each modification time to its calendar day and keeps exactly the
entries whose day satisfies the comparator, each wrapped in `Path`. -/
theorem filter_by_date_loop_date_eq (fs : FS) (d : Int) (ft : FilterType) :
    ∀ l : List Entry, (∀ e ∈ l, fs e.path ≠ none) →
      filter_by_date_loop fs (.date d) ft l =
        .ok ((l.map Entry.toPath).filter fun e => cmpDay ft (mtimeD fs e.path).day d) := by
  intro l
  induction l with
  | nil => intro h; simp [filter_by_date_loop]
  | cons f rest ih =>
    intro h
    have hf : fs f.path ≠ none := h f (by simp)
    have hrest := ih fun e he => h e (by simp [he])
    simp only [filter_by_date_loop, os_path_getmtime_eq fs f.path hf, isinstance_date,
      if_true, py_compare, hrest, List.map_cons, List.filter_cons, toPath_path]

/-- With a full `datetime` reference and the `EQUAL` comparator, the loop
keeps nothing: the truncated `date` on the left is never equal to the
`datetime` on the right. -/
theorem filter_by_date_loop_datetime_eq (fs : FS) (dt : PyDatetime) :
    ∀ l : List Entry, (∀ e ∈ l, fs e.path ≠ none) →
      filter_by_date_loop fs (.datetime dt) .EQUAL l = .ok [] := by
  intro l
  induction l with
  | nil => intro h; simp [filter_by_date_loop]
  | cons f rest ih =>
    intro h
    have hf : fs f.path ≠ none := h f (by simp)
    have hrest := ih fun e he => h e (by simp [he])
    simp [filter_by_date_loop, os_path_getmtime_eq fs f.path hf, isinstance_date,
      py_compare, hrest]

/-- With a full `datetime` reference and any comparator other than `EQUAL`,
the very first file raises `TypeError`: Python cannot order a `date` against
a `datetime`. -/
theorem filter_by_date_loop_datetime_error (fs : FS) (dt : PyDatetime)
    (ft : FilterType) (hft : ft ≠ .EQUAL) (f : Entry) (rest : List Entry)
    (hf : fs f.path ≠ none) :
    filter_by_date_loop fs (.datetime dt) ft (f :: rest) = .error .typeError := by
  cases ft <;> simp [filter_by_date_loop, os_path_getmtime_eq fs f.path hf,
    isinstance_date, py_compare] at hft ⊢

/-- What a successful key-extraction pass says: the decorated list projects
back to the input, and each pair records the modification time of its
entry. -/
theorem decorate_mtime_spec (fs : FS) :
    ∀ {l : List Entry} {keyed : List (PyDatetime × Entry)},
      decorate_mtime fs l = .ok keyed →
        keyed.map Prod.snd = l ∧ ∀ p ∈ keyed, os_path_getmtime fs p.2.path = .ok p.1 := by
  intro l
  induction l with
  | nil =>
    intro keyed h
    simp only [decorate_mtime] at h
    cases h
    simp
  | cons f rest ih =>
    intro keyed h
    simp only [decorate_mtime] at h
    split at h
    · cases h
    · rename_i m hm
      split at h
      · cases h
      · rename_i tail htail
        cases h
        obtain ⟨ih1, ih2⟩ := ih htail
        refine ⟨by simp [ih1], ?_⟩
        intro p hp
        rcases List.mem_cons.mp hp with hp | hp
        · cases hp
          exact hm
        · exact ih2 p hp

/-- Re-running the key-extraction pass on the projection of a decorated list
reproduces that decorated list. -/
theorem decorate_mtime_of_keys (fs : FS) :
    ∀ {keyed : List (PyDatetime × Entry)},
      (∀ p ∈ keyed, os_path_getmtime fs p.2.path = .ok p.1) →
      decorate_mtime fs (keyed.map Prod.snd) = .ok keyed := by
  intro keyed
  induction keyed with
  | nil => intro h; simp [decorate_mtime]
  | cons p rest ih =>
    intro h
    have hp := h p (by simp)
    have hrest := ih fun q hq => h q (by simp [hq])
    simp [decorate_mtime, hp, hrest]

theorem isEmpty_false_of_ne_nil {l : List Entry} (h : l ≠ []) : l.isEmpty = false := by
  cases l with
  | nil => exact absurd rfl h
  | cons a t => rfl

theorem order_files_name_asc_eq (fs : FS) {L : List Entry} (h : L ≠ []) :
    order_files fs L (.known .NAME_ASC) =
      .ok (py_sorted name_key strLe false (L.map Entry.toPath)) := by
  simp [order_files, isEmpty_false_of_ne_nil h, verify_existence_map_toPath]

theorem order_files_name_desc_eq (fs : FS) {L : List Entry} (h : L ≠ []) :
    order_files fs L (.known .NAME_DESC) =
      .ok (py_sorted name_key strLe true (L.map Entry.toPath)) := by
  simp [order_files, isEmpty_false_of_ne_nil h, verify_existence_map_toPath]

theorem order_files_unrecognized_eq (fs : FS) {L : List Entry} (h : L ≠ []) :
    order_files fs L .unrecognized =
      .ok (py_sorted name_key strLe false (L.map Entry.toPath)) := by
  simp [order_files, isEmpty_false_of_ne_nil h, verify_existence_map_toPath]

theorem order_files_modified_asc_eq (fs : FS) {L : List Entry} (h : L ≠ []) :
    order_files fs L (.known .MODIFIED_ASC) =
      order_modified fs false (L.map Entry.toPath) := by
  simp [order_files, isEmpty_false_of_ne_nil h, verify_existence_map_toPath]

theorem order_files_modified_desc_eq (fs : FS) {L : List Entry} (h : L ≠ []) :
    order_files fs L (.known .MODIFIED_DESC) =
      order_modified fs true (L.map Entry.toPath) := by
  simp [order_files, isEmpty_false_of_ne_nil h, verify_existence_map_toPath]

theorem order_files_unhashable_eq (fs : FS) {L : List Entry} (h : L ≠ []) :
    order_files fs L .unhashable = .error .typeError := by
  simp [order_files, isEmpty_false_of_ne_nil h, verify_existence_map_toPath]

/-- Facts about the output of a name ordering of a nonempty normalized list:
it is nonempty, already `Path`-normalized, and a fixed point of the same
sort. -/
theorem name_sort_out_facts (fs : FS) {L : List Entry} (hL : L ≠ []) (rev : Bool) :
    py_sorted name_key strLe rev (L.map Entry.toPath) ≠ [] ∧
    (py_sorted name_key strLe rev (L.map Entry.toPath)).map Entry.toPath =
      py_sorted name_key strLe rev (L.map Entry.toPath) ∧
    py_sorted name_key strLe rev
        ((py_sorted name_key strLe rev (L.map Entry.toPath)).map Entry.toPath) =
      py_sorted name_key strLe rev (L.map Entry.toPath) := by
  have hperm : py_sorted name_key strLe rev (L.map Entry.toPath) ~ L.map Entry.toPath :=
    py_sorted_perm _ _ _ _
  have hpaths : ∀ e ∈ py_sorted name_key strLe rev (L.map Entry.toPath), e.isPath = true :=
    fun e he => isPath_of_mem_map_toPath (hperm.mem_iff.mp he)
  have hmap := map_toPath_eq_self hpaths
  refine ⟨?_, hmap, ?_⟩
  · intro hc
    have hlen := hperm.length_eq
    rw [hc] at hlen
    have : L.map Entry.toPath = [] := List.length_eq_zero.mp hlen.symm
    exact hL (by simpa using this)
  · rw [hmap]
    exact py_sorted_idem name_key strLe strLe_trans strLe_total rev (L.map Entry.toPath)

/-- Facts about a successful modified-time ordering of a nonempty normalized
list: the output is nonempty, `Path`-normalized, and re-ordering it succeeds
and returns it unchanged. -/
theorem modified_out_facts (fs : FS) (rev : Bool) {files out : List Entry}
    (hfiles : ∀ e ∈ files, e.isPath = true) (hne : files ≠ [])
    (h : order_modified fs rev files = .ok out) :
    out ≠ [] ∧ out.map Entry.toPath = out ∧
      order_modified fs rev (out.map Entry.toPath) = .ok out := by
  unfold order_modified at h
  split at h
  · cases h
  · rename_i keyed hkeyed
    cases h
    obtain ⟨hproj, hkeys⟩ := decorate_mtime_spec fs hkeyed
    have hperm : py_sorted Prod.fst dtLe rev keyed ~ keyed := py_sorted_perm _ _ _ _
    have hpaths : ∀ e ∈ (py_sorted Prod.fst dtLe rev keyed).map Prod.snd, e.isPath = true := by
      intro e he
      rcases List.mem_map.mp he with ⟨p, hp, rfl⟩
      have : p ∈ keyed := hperm.mem_iff.mp hp
      exact hfiles p.2 (hproj ▸ List.mem_map_of_mem Prod.snd this)
    have hmap := map_toPath_eq_self hpaths
    have hkeys2 : ∀ p ∈ py_sorted Prod.fst dtLe rev keyed,
        os_path_getmtime fs p.2.path = .ok p.1 :=
      fun p hp => hkeys p (hperm.mem_iff.mp hp)
    refine ⟨?_, hmap, ?_⟩
    · intro hc
      have h0 : py_sorted Prod.fst dtLe rev keyed = [] := by
        cases hk : py_sorted Prod.fst dtLe rev keyed with
        | nil => rfl
        | cons a t => rw [hk] at hc; cases hc
      have hlen := hperm.length_eq
      rw [h0] at hlen
      have : keyed = [] := List.length_eq_zero.mp hlen.symm
      rw [this] at hproj
      exact hne (by simpa using hproj.symm)
    · rw [hmap]
      unfold order_modified
      simp only [decorate_mtime_of_keys fs hkeys2,
        py_sorted_idem Prod.fst dtLe dtLe_trans dtLe_total rev keyed]

/-- Structural induction over the nested directory tree. -/
theorem Tree.inductionOn {motive : Tree → Prop}
    (h : ∀ files dirs, (∀ name sub, (name, sub) ∈ dirs → motive sub) →
      motive (Tree.node files dirs)) : ∀ t, motive t
  | .node files dirs =>
    h files dirs fun name sub hmem => Tree.inductionOn h sub
termination_by t => sizeOf t
decreasing_by
  have h1 := List.sizeOf_lt_of_mem hmem
  simp only [Prod.mk.sizeOf_spec] at h1
  simp only [Tree.node.sizeOf_spec]
  omega

/-- A matching-file path is never empty. -/
theorem MatchedFile.ne_nil {pat : String → Bool} {t : Tree} {p : List String}
    (h : MatchedFile pat t p) : p ≠ [] := by
  cases h <;> simp

/-- Membership in the descent part of the walk: a path comes from one of the
subdirectories, prefixed with its name. -/
theorem mem_walk_dirs (pat : String → Bool) (maxD : Option Nat) (depth : Nat) :
    ∀ (dirs : List (String × Tree)) (p : List String),
      p ∈ walk_dirs pat maxD depth dirs ↔
        ∃ name sub p2, (name, sub) ∈ dirs ∧ p = name :: p2 ∧
          p2 ∈ walk_collect pat maxD (depth + 1) sub := by
  intro dirs
  induction dirs with
  | nil => intro p; simp [walk_dirs]
  | cons d rest ih =>
    intro p
    obtain ⟨name, sub⟩ := d
    simp only [walk_dirs, List.mem_append, List.mem_map, ih]
    constructor
    · rintro (⟨p2, hp2, rfl⟩ | ⟨n, s, p2, hmem, rfl, hp2⟩)
      · exact ⟨name, sub, p2, by simp, rfl, hp2⟩
      · exact ⟨n, s, p2, by simp [hmem], rfl, hp2⟩
    · rintro ⟨n, s, p2, hmem, rfl, hp2⟩
      rcases List.mem_cons.mp hmem with heq | hmem2
      · cases heq
        exact .inl ⟨p2, hp2, rfl⟩
      · exact .inr ⟨n, s, p2, hmem2, rfl, hp2⟩

/-- Master characterization of the walk: a path is collected exactly when it
is a matching file of the tree and its depth satisfies the bound relative to
the current depth. -/
theorem mem_walk_collect (pat : String → Bool) (maxD : Option Nat) (t : Tree) :
    ∀ (depth : Nat) (p : List String),
      p ∈ walk_collect pat maxD depth t ↔
        MatchedFile pat t p ∧ depth_ok maxD depth p := by
  induction t using Tree.inductionOn with
  | _ files dirs ih =>
    intro depth p
    simp only [walk_collect, List.mem_append, List.mem_map, List.mem_filter]
    constructor
    · rintro (⟨f, ⟨hf, hpat⟩, rfl⟩ | hrest)
      · refine ⟨.here hf hpat, ?_⟩
        cases maxD <;> simp [depth_ok]
      · have hnp : prunes maxD depth = false := by
          by_contra hc
          rw [Bool.not_eq_false] at hc
          rw [if_pos hc] at hrest
          cases hrest
        rw [if_neg (by simp [hnp])] at hrest
        rcases (mem_walk_dirs pat maxD depth dirs p).mp hrest with
          ⟨name, sub, p2, hmem, rfl, hp2⟩
        obtain ⟨hm2, hdo2⟩ := (ih name sub hmem (depth + 1) p2).mp hp2
        refine ⟨.there hmem hm2, ?_⟩
        cases maxD with
        | none => trivial
        | some m =>
          have hlt : depth < m := by
            simpa [prunes, decide_eq_false_iff_not] using hnp
          rcases hdo2 with h1 | h2 <;> simp only [depth_ok, List.length_cons] <;> omega
    · rintro ⟨hm, hdo⟩
      cases hm with
      | here hf hpat => exact .inl ⟨_, ⟨hf, hpat⟩, rfl⟩
      | there hmem hm2 =>
        rename_i name sub p2
        have hp2len : 1 ≤ p2.length :=
          List.length_pos.mpr (MatchedFile.ne_nil hm2)
        have hnp : prunes maxD depth = false := by
          cases maxD with
          | none => rfl
          | some m =>
            simp only [depth_ok, List.length_cons] at hdo
            simp only [prunes, decide_eq_false_iff_not]
            omega
        refine .inr ?_
        rw [if_neg (by simp [hnp])]
        refine (mem_walk_dirs pat maxD depth dirs _).mpr ⟨name, sub, p2, hmem, rfl, ?_⟩
        refine (ih name sub hmem (depth + 1) p2).mpr ⟨hm2, ?_⟩
        cases maxD with
        | none => trivial
        | some m =>
          simp only [depth_ok, List.length_cons] at hdo ⊢
          have hnp2 : ¬ depth ≥ m := by
            simpa [prunes, decide_eq_false_iff_not] using hnp
          omega

/-- When the sort keys of a list are pairwise distinct, the descending
(`reverse=True`) stable sort is exactly the reverse of the ascending one. -/
theorem py_sorted_reverse_of_distinct {α κ : Type} [LinearOrder κ] (key : α → κ)
    (le : κ → κ → Bool) (hle : ∀ x y, le x y = true ↔ x ≤ y) (l : List α)
    (h : l.Pairwise fun a b => key a ≠ key b) :
    (py_sorted key le false l).reverse = py_sorted key le true l := by
  have hT : ∀ x y z, le x y → le y z → le x z := fun x y z h1 h2 =>
    (hle x z).mpr (le_trans ((hle x y).mp h1) ((hle y z).mp h2))
  have hTot : ∀ x y, le x y || le y x := by
    intro x y
    rcases le_total x y with h1 | h1
    · simp [(hle x y).mpr h1]
    · simp [(hle y x).mpr h1]
  have hpA : py_sorted key le false l ~ l := py_sorted_perm _ _ _ _
  have hpD : py_sorted key le true l ~ l := py_sorted_perm _ _ _ _
  have hsA := py_sorted_pairwise key le hT hTot false l
  have hsD := py_sorted_pairwise key le hT hTot true l
  have hsymm : ∀ {x y : α}, key x ≠ key y → key y ≠ key x := fun hxy => hxy.symm
  have hdA : (py_sorted key le false l).Pairwise fun a b => key a ≠ key b :=
    (List.Perm.pairwise_iff hsymm hpA).mpr h
  have hdD : (py_sorted key le true l).Pairwise fun a b => key a ≠ key b :=
    (List.Perm.pairwise_iff hsymm hpD).mpr h
  have hltA : (py_sorted key le false l).Pairwise fun a b => key a < key b :=
    (hsA.and hdA).imp fun hab =>
      lt_of_le_of_ne ((hle _ _).mp (by simpa [key_cmp] using hab.1)) hab.2
  have hgtD : (py_sorted key le true l).Pairwise fun a b => key b < key a :=
    (hsD.and hdD).imp fun hab =>
      lt_of_le_of_ne ((hle _ _).mp (by simpa [key_cmp] using hab.1)) hab.2.symm
  have hrev : (py_sorted key le false l).reverse.Pairwise fun a b => key b < key a :=
    List.pairwise_reverse.mpr hltA
  have hperm : (py_sorted key le false l).reverse ~ py_sorted key le true l :=
    ((py_sorted key le false l).reverse_perm.trans hpA).trans hpD.symm
  haveI : IsAntisymm α (fun a b => key b < key a) :=
    ⟨fun a b h1 h2 => absurd h2 (lt_asymm h1)⟩
  exact List.eq_of_perm_of_sorted hperm hrev hgtD

/-! ## Claims -/

/-- C1: the claim says that every call to `filter_by_date`, `filter_by_size`
or `order_files` on a list containing a missing path raises `NotFoundError`
before any comparison, stat or sort, with no partial output. The code cannot
do this: on a `Path` entry, `_verify_existence` tests the uncalled bound
method `file.exists`, which is always truthy, so the validator passes a
missing path without raising. Against an empty filesystem, a name ordering
of the missing `Path("missing.txt")` therefore returns a complete sorted
result instead of raising, and the two filters fail only later, inside the
per-file stat call, with the OS-level `FileNotFoundError` — not from the
validator. -/
theorem C1_missing_path_not_validated :
    order_files fsEmpty [⟨true, "missing.txt"⟩] (.known .NAME_ASC) =
        .ok [⟨true, "missing.txt"⟩] ∧
    verify_existence [⟨true, "missing.txt"⟩] = .ok () ∧
    filter_by_date fsEmpty [⟨true, "missing.txt"⟩] (.date 0) .EQUAL =
        .error (.fileNotFound "missing.txt") ∧
    filter_by_size fsEmpty [⟨true, "missing.txt"⟩] none none =
        .error (.fileNotFound "missing.txt") := by
  refine ⟨?_, rfl, rfl, rfl⟩
  simp [order_files, verify_existence, exists_attribute, py_sorted,
    List.mergeSort_singleton, Entry.toPath]

/-- C2 counterexample: `a.txt` was modified at the datetime (day 5,
time-of-day 100) and the reference is that identical full `datetime`. The
claim predicts a full-precision comparison, so `>=` holds and the file is
returned. Instead the code truncates the file's timestamp to its calendar
date even for a `datetime` reference (`datetime` is a subclass of `date`, so
the `isinstance` test is true), after which Python refuses to order a `date`
against a `datetime`: the call raises `TypeError`; with `EQUAL` it returns
the empty list although the timestamps are equal. -/
theorem C2_counterexample :
    filter_by_date fsA [⟨true, "a.txt"⟩] (.datetime ⟨5, 100⟩) .GREATER_THAN_EQUAL =
        .error .typeError ∧
    filter_by_date fsA [⟨true, "a.txt"⟩] (.datetime ⟨5, 100⟩) .GREATER_THAN_EQUAL ≠
        .ok [⟨true, "a.txt"⟩] ∧
    filter_by_date fsA [⟨true, "a.txt"⟩] (.datetime ⟨5, 100⟩) .EQUAL = .ok [] := by
  have h1 : filter_by_date fsA [⟨true, "a.txt"⟩] (.datetime ⟨5, 100⟩)
      .GREATER_THAN_EQUAL = .error .typeError := rfl
  refine ⟨h1, ?_, rfl⟩
  rw [h1]
  intro hc
  cases hc

/-- C2 (amended): on a list of existing files supplied as `Path` values (a
list containing a plain string never reaches the comparison — it raises
`AttributeError` inside `_verify_existence` first), when the reference
carries only a calendar date the file's timestamp is truncated to its
calendar date and the selected comparator applied, exactly the passing files
(in input order) being returned — as the claim states. But when the
reference is a full `datetime` the file's timestamp is still truncated
(`datetime` is a subclass of `date`, so the `isinstance` truncation test
holds for both): the `EQUAL` comparator then never holds, giving an empty
result, and every other comparator raises `TypeError` on the first file. -/
theorem C2_filter_by_date_spec (fs : FS) (L : List Entry)
    (hpaths : ∀ e ∈ L, e.isPath = true)
    (hex : ∀ e ∈ L, fs e.path ≠ none) :
    (∀ (d : Int) (ft : FilterType),
        filter_by_date fs L (.date d) ft =
          .ok (L.filter fun e => cmpDay ft (mtimeD fs e.path).day d)) ∧
    (∀ dt : PyDatetime, filter_by_date fs L (.datetime dt) .EQUAL = .ok []) ∧
    (∀ (dt : PyDatetime) (ft : FilterType) (f : Entry) (rest : List Entry),
        ft ≠ .EQUAL → L = f :: rest →
        filter_by_date fs L (.datetime dt) ft = .error .typeError) := by
  refine ⟨?_, ?_, ?_⟩
  · intro d ft
    simp only [filter_by_date, verify_existence_ok hpaths]
    rw [filter_by_date_loop_date_eq fs d ft L hex, map_toPath_eq_self hpaths]
  · intro dt
    simp only [filter_by_date, verify_existence_ok hpaths]
    exact filter_by_date_loop_datetime_eq fs dt L hex
  · intro dt ft f rest hft hL
    subst hL
    simp only [filter_by_date, verify_existence_ok hpaths]
    exact filter_by_date_loop_datetime_error fs dt ft hft f rest (hex f (by simp))

/-- C2 witness: a whole-day `EQUAL` filter with a date reference keeps the
`Path` file modified on that day. -/
theorem C2_witness :
    filter_by_date fsA [⟨true, "a.txt"⟩] (.date 5) .EQUAL =
      .ok [⟨true, "a.txt"⟩] := by
  have hpaths : ∀ e ∈ ([⟨true, "a.txt"⟩] : List Entry), e.isPath = true := by
    intro e he
    simp only [List.mem_singleton] at he
    subst he
    rfl
  have hex : ∀ e ∈ ([⟨true, "a.txt"⟩] : List Entry), fsA e.path ≠ none := by
    intro e he
    simp only [List.mem_singleton] at he
    subst he
    simp [fsA]
  have h := (C2_filter_by_date_spec fsA [⟨true, "a.txt"⟩] hpaths hex).1 5 .EQUAL
  rw [h]
  rfl

/-- C3: with bound `N`, `find_files` returns exactly the matching files it
would return unbounded whose relative path has at most `N + 1` segments —
that is, whose containing directory sits at depth at most `N` below the
root; in particular it never returns a file deeper than that, a directory at
depth `N` is still scanned for files but not descended into, and with bound
`0` the result is exactly the matching files of the root directory itself.
With the bound unset, a path is returned exactly when it is a matching file
of the tree at any depth. -/
theorem C3_find_files_depth :
    (∀ (pat : String → Bool) (t : Tree) (N : Nat) (p : List String),
        p ∈ find_files pat t (some N) ↔
          p ∈ find_files pat t none ∧ p.length ≤ N + 1) ∧
    (∀ (pat : String → Bool) (t : Tree) (p : List String),
        p ∈ find_files pat t none ↔ MatchedFile pat t p) ∧
    (∀ (pat : String → Bool) (files : List String) (dirs : List (String × Tree)),
        find_files pat (.node files dirs) (some 0) =
          (files.filter pat).map fun f => [f]) := by
  have hnone : ∀ (pat : String → Bool) (t : Tree) (p : List String),
      p ∈ find_files pat t none ↔ MatchedFile pat t p := by
    intro pat t p
    rw [find_files, mem_walk_collect]
    simp [depth_ok]
  refine ⟨?_, hnone, ?_⟩
  · intro pat t N p
    rw [find_files, mem_walk_collect, hnone]
    simp only [depth_ok]
    constructor
    · rintro ⟨hm, h1 | h2⟩
      · exact ⟨hm, by omega⟩
      · exact ⟨hm, by omega⟩
    · rintro ⟨hm, hlen⟩
      exact ⟨hm, .inr (by omega)⟩
  · intro pat files dirs
    simp [find_files, walk_collect, prunes]

/-- C4 counterexample: on the list holding the plain string `"a.txt"` — an
existing file, supplied as `str` as the signature `List[Union[str, Path]]`
allows — `filter_by_size(L, min=0, max=unset)` does not return the filtered
entries at all: `_verify_existence` receives the raw, un-converted list and
the attribute access `file.exists` on the string raises `AttributeError`
before any size is read. -/
theorem C4_counterexample :
    filter_by_size fsA [⟨false, "a.txt"⟩] (some 0) none =
        .error (.attributeError "a.txt") ∧
    filter_by_size fsA [⟨false, "a.txt"⟩] (some 0) none ≠
        .ok [⟨false, "a.txt"⟩] := by
  have h : filter_by_size fsA [⟨false, "a.txt"⟩] (some 0) none =
      .error (.attributeError "a.txt") := rfl
  refine ⟨h, ?_⟩
  rw [h]
  intro hc
  cases hc

/-- C4 (amended): on a list of existing files supplied as `Path` values,
`filter_by_size` returns exactly the input entries whose byte size lies in
the inclusive range — no lower constraint when `min_size` is unset, no upper
constraint when `max_size` is unset — in input order, and
`filter_by_size(L, min=0, max=unset)` returns `L` unchanged; a list
containing a plain-string entry instead raises `AttributeError` inside
`_verify_existence` (a `str` has no attribute `exists`), before any size is
read. -/
theorem C4_filter_by_size_spec (fs : FS) (L : List Entry) (mn mx : Option Nat)
    (hpaths : ∀ e ∈ L, e.isPath = true)
    (hex : ∀ e ∈ L, fs e.path ≠ none) :
    filter_by_size fs L mn mx =
        .ok (L.filter fun e => size_in_range mn mx (sizeD fs e.path)) ∧
    filter_by_size fs L (some 0) none = .ok L ∧
    (∀ (M pre post : List Entry) (f : Entry),
        M = pre ++ f :: post → (∀ e ∈ pre, e.isPath = true) →
        f.isPath = false →
        filter_by_size fs M mn mx = .error (.attributeError f.path)) := by
  refine ⟨?_, ?_, ?_⟩
  · simp only [filter_by_size, verify_existence_ok hpaths]
    rw [filter_by_size_loop_eq fs mn mx L hex, map_toPath_eq_self hpaths]
  · simp only [filter_by_size, verify_existence_ok hpaths]
    rw [filter_by_size_loop_eq fs (some 0) none L hex]
    have hall : ∀ e ∈ L.map Entry.toPath,
        size_in_range (some 0) none (sizeD fs e.path) = true := by
      intro e he
      simp [size_in_range]
    rw [List.filter_eq_self.mpr hall, map_toPath_eq_self hpaths]
  · intro M pre post f hM hpre hf
    subst hM
    simp only [filter_by_size, verify_existence_first_str pre f post hpre hf]

/-- C4 witness: the range filter at min 0 with no upper bound returns a
`Path` list unchanged, and a plain-string entry raises `AttributeError`. -/
theorem C4_witness :
    filter_by_size fsA [⟨true, "a.txt"⟩] (some 0) none =
        .ok [⟨true, "a.txt"⟩] ∧
    filter_by_size fsA [⟨false, "a.txt"⟩] (some 0) none =
        .error (.attributeError "a.txt") := by
  have hpaths : ∀ e ∈ ([⟨true, "a.txt"⟩] : List Entry), e.isPath = true := by
    intro e he
    simp only [List.mem_singleton] at he
    subst he
    rfl
  have hex : ∀ e ∈ ([⟨true, "a.txt"⟩] : List Entry), fsA e.path ≠ none := by
    intro e he
    simp only [List.mem_singleton] at he
    subst he
    simp [fsA]
  obtain ⟨-, h2, h3⟩ := C4_filter_by_size_spec fsA [⟨true, "a.txt"⟩]
    (some 0) none hpaths hex
  exact ⟨h2, h3 [⟨false, "a.txt"⟩] [] [] ⟨false, "a.txt"⟩ rfl
    (by intro e he; cases he) rfl⟩

/-- C5: constructing the scanner on a path that does not exist raises
`NotFoundError` (Python's `FileNotFoundError`); on a path that exists but is
a regular file it raises `NotADirectoryError`; on an existing directory it
succeeds, producing just the two stored fields; and the pattern argument is
never validated — the outcome is the same for every pattern string `p`. -/
theorem C5_constructor_validation (fs : FS) (d p : String) :
    (fs d = none → FileFinder.init fs d p = .error (.fileNotFound d)) ∧
    (∀ m, fs d = some (.file m) →
        FileFinder.init fs d p = .error (.notADirectory d)) ∧
    (∀ m, fs d = some (.dir m) → FileFinder.init fs d p = .ok ⟨d, p⟩) := by
  refine ⟨?_, ?_, ?_⟩
  · intro h
    simp [FileFinder.init, os_path_exists, h]
  · intro m h
    simp [FileFinder.init, os_path_exists, os_path_isdir, h]
  · intro m h
    simp [FileFinder.init, os_path_exists, os_path_isdir, h]

/-- C5 witness: the three constructor outcomes at concrete filesystems. -/
theorem C5_witness :
    FileFinder.init fsEmpty "missing" "*.txt" = .error (.fileNotFound "missing") ∧
    FileFinder.init fsA "a.txt" "*.txt" = .error (.notADirectory "a.txt") ∧
    FileFinder.init fsDir "root" "[invalid" = .ok ⟨"root", "[invalid"⟩ :=
  ⟨(C5_constructor_validation fsEmpty "missing" "*.txt").1 rfl,
   (C5_constructor_validation fsA "a.txt" "*.txt").2.1 ⟨⟨5, 100⟩, 10⟩ rfl,
   (C5_constructor_validation fsDir "root" "[invalid").2.2 ⟨⟨0, 0⟩, 0⟩ rfl⟩

/-- C6: `order_files` is idempotent — re-ordering an already ordered list
with the same criterion returns it unchanged, for every criterion including
the unrecognized-criterion fallback — and its underlying sort is stable for
equal keys in both directions: two entries whose sort keys are equal (the
lower-cased path for the name orders, the modification time for the modified
orders) keep their relative input order in the output. -/
theorem C6_order_files_idempotent_and_stable :
    (∀ (fs : FS) (L : List Entry) (c : OrderArg) (out : List Entry),
        order_files fs L c = .ok out → order_files fs out c = .ok out) ∧
    (∀ (rev : Bool) (files : List Entry) (a b : Entry),
        name_key a = name_key b → [a, b] <+ files →
        [a, b] <+ py_sorted name_key strLe rev files) ∧
    (∀ (rev : Bool) (keyed : List (PyDatetime × Entry)) (a b : PyDatetime × Entry),
        a.1 = b.1 → [a, b] <+ keyed →
        [a, b] <+ py_sorted Prod.fst dtLe rev keyed) := by
  refine ⟨?_, ?_, ?_⟩
  · intro fs L c out h
    by_cases hL : L = []
    · subst hL
      simp only [order_files, List.isEmpty_nil, if_true] at h
      cases h
      simp [order_files]
    · have hfiles : ∀ e ∈ L.map Entry.toPath, e.isPath = true :=
        fun e he => isPath_of_mem_map_toPath he
      have hfne : L.map Entry.toPath ≠ [] := by
        simpa using hL
      cases c with
      | unhashable =>
        rw [order_files_unhashable_eq fs hL] at h
        cases h
      | unrecognized =>
        rw [order_files_unrecognized_eq fs hL] at h
        cases h
        obtain ⟨h1, -, h3⟩ := name_sort_out_facts fs hL false
        rw [order_files_unrecognized_eq fs h1, h3]
      | known ob =>
        cases ob with
        | NAME_ASC =>
          rw [order_files_name_asc_eq fs hL] at h
          cases h
          obtain ⟨h1, -, h3⟩ := name_sort_out_facts fs hL false
          rw [order_files_name_asc_eq fs h1, h3]
        | NAME_DESC =>
          rw [order_files_name_desc_eq fs hL] at h
          cases h
          obtain ⟨h1, -, h3⟩ := name_sort_out_facts fs hL true
          rw [order_files_name_desc_eq fs h1, h3]
        | MODIFIED_ASC =>
          rw [order_files_modified_asc_eq fs hL] at h
          obtain ⟨h1, h2, h3⟩ := modified_out_facts fs false hfiles hfne h
          rw [order_files_modified_asc_eq fs h1, ← h3, h2]
        | MODIFIED_DESC =>
          rw [order_files_modified_desc_eq fs hL] at h
          obtain ⟨h1, h2, h3⟩ := modified_out_facts fs true hfiles hfne h
          rw [order_files_modified_desc_eq fs h1, ← h3, h2]
  · intro rev files a b hk hsub
    exact py_sorted_pair_stable name_key strLe strLe_trans strLe_total rev hk hsub
  · intro rev keyed a b hk hsub
    exact py_sorted_pair_stable Prod.fst dtLe dtLe_trans dtLe_total rev hk hsub

/-- C6 witness: a modified-ascending ordering of two files, re-ordered with
the same criterion, is returned unchanged. -/
theorem C6_witness :
    order_files fsAB [⟨false, "a.txt"⟩, ⟨true, "b.txt"⟩] (.known .MODIFIED_ASC) =
        .ok [⟨true, "b.txt"⟩, ⟨true, "a.txt"⟩] ∧
    order_files fsAB [⟨true, "b.txt"⟩, ⟨true, "a.txt"⟩] (.known .MODIFIED_ASC) =
        .ok [⟨true, "b.txt"⟩, ⟨true, "a.txt"⟩] := by
  have h1 : order_files fsAB [⟨false, "a.txt"⟩, ⟨true, "b.txt"⟩]
      (.known .MODIFIED_ASC) = .ok [⟨true, "b.txt"⟩, ⟨true, "a.txt"⟩] := by
    simp [order_files, verify_existence, exists_attribute, order_modified,
      decorate_mtime, os_path_getmtime, fsAB, FSNode.meta, py_sorted, key_cmp,
      List.mergeSort, List.merge, dtLe, Entry.toPath]
  exact ⟨h1, C6_order_files_idempotent_and_stable.1 fsAB _ _ _ h1⟩

/-- C7: when no two entries of the input share the same lower-cased full
path string, the name-descending ordering is exactly the reverse of the
name-ascending ordering. -/
theorem C7_name_desc_is_reverse (fs : FS) (L A D : List Entry)
    (hdist : L.Pairwise fun a b => name_key a ≠ name_key b)
    (hA : order_files fs L (.known .NAME_ASC) = .ok A)
    (hD : order_files fs L (.known .NAME_DESC) = .ok D) :
    A.reverse = D := by
  by_cases hL : L = []
  · subst hL
    simp only [order_files, List.isEmpty_nil, if_true] at hA hD
    cases hA
    cases hD
    rfl
  · rw [order_files_name_asc_eq fs hL] at hA
    rw [order_files_name_desc_eq fs hL] at hD
    cases hA
    cases hD
    apply py_sorted_reverse_of_distinct name_key strLe
      (fun x y => by simp [strLe]) (L.map Entry.toPath)
    rw [List.pairwise_map]
    exact hdist

/-- C7 witness: on two files with distinct lower-cased names, reversing the
ascending name order gives the descending one. -/
theorem C7_witness :
    order_files fsAB [⟨true, "b.txt"⟩, ⟨true, "a.txt"⟩] (.known .NAME_ASC) =
        .ok [⟨true, "a.txt"⟩, ⟨true, "b.txt"⟩] ∧
    order_files fsAB [⟨true, "b.txt"⟩, ⟨true, "a.txt"⟩] (.known .NAME_DESC) =
        .ok [⟨true, "b.txt"⟩, ⟨true, "a.txt"⟩] ∧
    ([⟨true, "a.txt"⟩, ⟨true, "b.txt"⟩] : List Entry).reverse =
        [⟨true, "b.txt"⟩, ⟨true, "a.txt"⟩] := by
  have hA : order_files fsAB [⟨true, "b.txt"⟩, ⟨true, "a.txt"⟩]
      (.known .NAME_ASC) = .ok [⟨true, "a.txt"⟩, ⟨true, "b.txt"⟩] := by
    simp [order_files, verify_existence, exists_attribute, py_sorted,
      key_cmp, List.mergeSort, List.merge, name_key, str_lower, strLe,
      Entry.toPath]
    all_goals decide
  have hD : order_files fsAB [⟨true, "b.txt"⟩, ⟨true, "a.txt"⟩]
      (.known .NAME_DESC) = .ok [⟨true, "b.txt"⟩, ⟨true, "a.txt"⟩] := by
    simp [order_files, verify_existence, exists_attribute, py_sorted,
      key_cmp, List.mergeSort, List.merge, name_key, str_lower, strLe,
      Entry.toPath]
    all_goals decide
  refine ⟨hA, hD, ?_⟩
  exact C7_name_desc_is_reverse fsAB [⟨true, "b.txt"⟩, ⟨true, "a.txt"⟩] _ _
    (by decide) hA hD

/-- C8: every output the filters actually produce is a subsequence of the
input list `L`: surviving entries appear in the same relative order as in
`L` and no entry not in `L` is introduced. A successful call implies the
validator passed, which happens only when every entry of `L` is a `Path`;
the surviving entries are then the `Path`-rewrapped input entries, equal to
the originals. (A list containing a plain string produces no output at all —
it raises `AttributeError` in `_verify_existence` — so it cannot violate the
claim.) -/
theorem C8_filters_subsequence (fs : FS) (L : List Entry) (fd : PyDate)
    (ft : FilterType) (mn mx : Option Nat) :
    (∀ out, filter_by_date fs L fd ft = .ok out → out <+ L) ∧
    (∀ out, filter_by_size fs L mn mx = .ok out → out <+ L) := by
  constructor
  · intro out h
    obtain ⟨hver, hloop⟩ := filter_by_date_ok_inv h
    have hpaths := verify_existence_ok_paths hver
    have hres := filter_by_date_loop_sublist fs fd ft hloop
    rwa [map_toPath_eq_self hpaths] at hres
  · intro out h
    obtain ⟨hver, hloop⟩ := filter_by_size_ok_inv h
    have hpaths := verify_existence_ok_paths hver
    have hres := filter_by_size_loop_sublist fs mn mx hloop
    rwa [map_toPath_eq_self hpaths] at hres

/-- C8 witness: a size filter keeps the larger of two `Path` entries, and
the result is a subsequence of the input. -/
theorem C8_witness :
    filter_by_size fsAB [⟨true, "a.txt"⟩, ⟨true, "b.txt"⟩] (some 15) none =
        .ok [⟨true, "b.txt"⟩] ∧
    ([⟨true, "b.txt"⟩] : List Entry) <+ [⟨true, "a.txt"⟩, ⟨true, "b.txt"⟩] := by
  have h : filter_by_size fsAB [⟨true, "a.txt"⟩, ⟨true, "b.txt"⟩] (some 15) none =
      .ok [⟨true, "b.txt"⟩] := rfl
  refine ⟨h, ?_⟩
  exact (C8_filters_subsequence fsAB [⟨true, "a.txt"⟩, ⟨true, "b.txt"⟩]
    (.date 0) .EQUAL (some 15) none).2 _ h

/-- C9 counterexample: the claim says every criterion value that is not one
of the four `OrderBy` members makes a non-empty call return the
name-ascending result rather than raise. An unhashable criterion value — a
Python list, say — refutes it: `_ORDER_OPERATIONS.get(order_by, ...)` raises
`TypeError: unhashable type` when it hashes the key, so the call errors
instead of returning the sorted list. -/
theorem C9_counterexample :
    order_files fsA [⟨true, "a.txt"⟩] .unhashable = .error .typeError ∧
    order_files fsA [⟨true, "a.txt"⟩] .unhashable ≠ .ok [⟨true, "a.txt"⟩] := by
  have h : order_files fsA [⟨true, "a.txt"⟩] .unhashable = .error .typeError :=
    order_files_unhashable_eq fsA (by simp)
  refine ⟨h, ?_⟩
  rw [h]
  intro hc
  cases hc

/-- C9 (amended): a hashable criterion value that is not one of the four
`OrderBy` members makes `order_files` fall back to the name-ascending sort —
returning the same successful result, never an error; an unhashable
criterion value instead raises `TypeError` from the dictionary lookup; and
ordering an empty list returns the empty list with no validation and no
error, on every filesystem and for every criterion, unhashable ones
included. -/
theorem C9_fallback_and_empty :
    (∀ (fs : FS) (L : List Entry), L ≠ [] →
        ∃ out, order_files fs L .unrecognized = .ok out ∧
          order_files fs L (.known .NAME_ASC) = .ok out) ∧
    (∀ (fs : FS) (L : List Entry), L ≠ [] →
        order_files fs L .unhashable = .error .typeError) ∧
    (∀ (fs : FS) (c : OrderArg), order_files fs [] c = .ok []) := by
  refine ⟨?_, ?_, ?_⟩
  · intro fs L h
    exact ⟨_, order_files_unrecognized_eq fs h, order_files_name_asc_eq fs h⟩
  · intro fs L h
    exact order_files_unhashable_eq fs h
  · intro fs c
    simp [order_files]

/-- C9 witness: an unrecognized hashable criterion on a missing-path entry
still returns the name-ascending result, while an unhashable criterion
raises `TypeError`. -/
theorem C9_witness :
    order_files fsEmpty [⟨false, "z"⟩] .unrecognized = .ok [⟨true, "z"⟩] ∧
    order_files fsEmpty [⟨false, "z"⟩] .unhashable = .error .typeError := by
  obtain ⟨out, h1, h2⟩ := C9_fallback_and_empty.1 fsEmpty [⟨false, "z"⟩] (by simp)
  have h3 : order_files fsEmpty [⟨false, "z"⟩] (.known .NAME_ASC) =
      .ok [⟨true, "z"⟩] := by
    simp [order_files, verify_existence, exists_attribute, py_sorted,
      List.mergeSort_singleton, Entry.toPath]
  constructor
  · rw [h1, ← h2]
    exact h3
  · exact C9_fallback_and_empty.2.1 fsEmpty [⟨false, "z"⟩] (by simp)

/-- C10 counterexample: the claim's scenario — a plain-string input entry
surviving to a `Path` output — never occurs. On an existing file supplied as
a plain string, both filters raise `AttributeError` inside
`_verify_existence` (which receives the raw, un-converted list) before any
filtering, so the call produces no output at all, let alone a `Path`-wrapped
survivor. -/
theorem C10_counterexample :
    filter_by_date fsA [⟨false, "a.txt"⟩] (.date 5) .GREATER_THAN_EQUAL =
        .error (.attributeError "a.txt") ∧
    filter_by_date fsA [⟨false, "a.txt"⟩] (.date 5) .GREATER_THAN_EQUAL ≠
        .ok [⟨true, "a.txt"⟩] ∧
    filter_by_size fsA [⟨false, "a.txt"⟩] none none =
        .error (.attributeError "a.txt") := by
  have h : filter_by_date fsA [⟨false, "a.txt"⟩] (.date 5) .GREATER_THAN_EQUAL =
      .error (.attributeError "a.txt") := rfl
  refine ⟨h, ?_, rfl⟩
  rw [h]
  intro hc
  cases hc

/-- C10 (amended): every entry of an output `filter_by_date` or
`filter_by_size` actually produces is a `Path` value (each survivor is the
input entry rewrapped with `Path(file_path)`); but the output element type
cannot be said to be independent of the input element type, because only
all-`Path` inputs produce output — a list containing a plain string raises
`AttributeError` during validation instead. -/
theorem C10_filters_normalize_to_path (fs : FS) (L : List Entry) (fd : PyDate)
    (ft : FilterType) (mn mx : Option Nat) :
    (∀ out, filter_by_date fs L fd ft = .ok out → ∀ e ∈ out, e.isPath = true) ∧
    (∀ out, filter_by_size fs L mn mx = .ok out → ∀ e ∈ out, e.isPath = true) ∧
    (∀ (pre post : List Entry) (f : Entry),
        L = pre ++ f :: post → (∀ e ∈ pre, e.isPath = true) →
        f.isPath = false →
        filter_by_date fs L fd ft = .error (.attributeError f.path)) := by
  refine ⟨?_, ?_, ?_⟩
  · intro out h e he
    obtain ⟨-, hloop⟩ := filter_by_date_ok_inv h
    have hsub : out <+ L.map Entry.toPath :=
      filter_by_date_loop_sublist fs fd ft hloop
    exact isPath_of_mem_map_toPath (hsub.subset he)
  · intro out h e he
    obtain ⟨-, hloop⟩ := filter_by_size_ok_inv h
    have hsub : out <+ L.map Entry.toPath :=
      filter_by_size_loop_sublist fs mn mx hloop
    exact isPath_of_mem_map_toPath (hsub.subset he)
  · intro pre post f hM hpre hf
    subst hM
    simp only [filter_by_date, verify_existence_first_str pre f post hpre hf]

/-- C10 witness: a filter applied to a `Path` entry returns `Path` entries,
and a plain-string entry makes the call raise `AttributeError`. -/
theorem C10_witness :
    filter_by_date fsA [⟨true, "a.txt"⟩] (.date 5) .GREATER_THAN_EQUAL =
        .ok [⟨true, "a.txt"⟩] ∧
    (⟨true, "a.txt"⟩ : Entry).isPath = true ∧
    filter_by_date fsA [⟨false, "a.txt"⟩] (.date 5) .GREATER_THAN_EQUAL =
        .error (.attributeError "a.txt") := by
  have h : filter_by_date fsA [⟨true, "a.txt"⟩] (.date 5) .GREATER_THAN_EQUAL =
      .ok [⟨true, "a.txt"⟩] := rfl
  obtain ⟨h1, -, h3⟩ := C10_filters_normalize_to_path fsA [⟨false, "a.txt"⟩]
    (.date 5) .GREATER_THAN_EQUAL none none
  refine ⟨h, ?_, ?_⟩
  · exact (C10_filters_normalize_to_path fsA [⟨true, "a.txt"⟩] (.date 5)
      .GREATER_THAN_EQUAL none none).1 _ h _ (by simp)
  · exact h3 [] [] ⟨false, "a.txt"⟩ rfl (by intro e he; cases he) rfl

end ParseMate
